import Mathlib

/-!
Verification of the chat broker's wire codec, frame reader and connection
registry (repository alessandro90/chat_app).

The Rust sources are shallowly embedded:
* `src/src/message.rs` — the wire codec (`SerializedMessage`,
  `ParsedMsg::from_bytes`), with bytes modelled as `Nat` values and Rust
  `String` as Lean `String`; `str::as_bytes` and `String::from_utf8_lossy`
  are modelled by an explicit UTF-8 encoder and a lossy UTF-8 decoder.
* `src/src/bin/server/main.rs` — the connection registry (`Connections`)
  with the registry modelled as the list of registered peer addresses
  (peer addresses are opaque keys, modelled as `Nat`; `SocketAddr::to_string`
  is modelled by `addrToString`), and the per-connection frame reader
  (`parse_messages`) modelled one loop-iteration state at a time
  (`headerStep`, `readPayloadStep`, `discardRun`).
-/

/-! ## Wire codec: src/src/message.rs -/

/-- `pub const MAX_MSG_LEN: usize = 5 * 1024;` -/
def MAX_MSG_LEN : Nat := 5 * 1024

/-- `enum MsgType { Text = 0, UserCount = 1, Help = 2 }` -/
inductive MsgType
  | Text
  | UserCount
  | Help
deriving DecidableEq

/-- The discriminant written on the wire (`msg_type as u8`). -/
def MsgType.toU8 : MsgType → Nat
  | .Text => 0
  | .UserCount => 1
  | .Help => 2

/-- `impl TryInto<MsgType> for u8` (message.rs:82-92): 0, 1, 2 decode, any
other discriminant fails. -/
def tryIntoMsgType : Nat → Option MsgType
  | 0 => some MsgType.Text
  | 1 => some MsgType.UserCount
  | 2 => some MsgType.Help
  | _ => none

/-- `enum Cmd { UserCount, Help }` -/
inductive Cmd
  | UserCount
  | Help
deriving DecidableEq

/-- `enum InfoKind { MessageTooLong, ServerFull }` -/
inductive InfoKind
  | MessageTooLong
  | ServerFull
deriving DecidableEq

/-- `enum ParsedMsg { UserCount(u32), Text(String), Command(Cmd),
Info(InfoKind), Help(String) }`.  The `u32` payload is a `Nat` below `2^32`. -/
inductive ParsedMsg
  | UserCount (n : Nat)
  | Text (s : String)
  | Command (c : Cmd)
  | Info (k : InfoKind)
  | Help (s : String)
deriving DecidableEq

/-- `u32::to_be_bytes`: the four big-endian bytes of a 32-bit value.  For
arguments of 32 bits or more this keeps exactly the low 32 bits, which is
also what a Rust `as u32` cast followed by `to_be_bytes` produces. -/
def u32BeBytes (n : Nat) : List Nat :=
  [n / 16777216 % 256, n / 65536 % 256, n / 256 % 256, n % 256]

/-! ### UTF-8, modelling Rust `str::as_bytes` and `String::from_utf8_lossy`.

A Lean `Char` and a Rust `char` are both exactly the Unicode scalar values,
so the standard UTF-8 encoding of a `Char` coincides with the bytes of the
Rust string. -/

/-- Standard UTF-8 encoding of one Unicode scalar value. -/
def utf8EncodeNat (n : Nat) : List Nat :=
  if n < 128 then [n]
  else if n < 2048 then [192 + n / 64, 128 + n % 64]
  else if n < 65536 then [224 + n / 4096, 128 + n / 64 % 64, 128 + n % 64]
  else [240 + n / 262144, 128 + n / 4096 % 64, 128 + n / 64 % 64, 128 + n % 64]

/-- UTF-8 encoding of one character. -/
def encodeChar (c : Char) : List Nat :=
  utf8EncodeNat c.toNat

/-- Rust `str::as_bytes` / `payload.as_bytes()`: the UTF-8 bytes of a string. -/
def strBytes (s : String) : List Nat :=
  s.data.flatMap encodeChar

/-- U+FFFD REPLACEMENT CHARACTER, substituted by the lossy decoder. -/
def replChar : Char := Char.ofNat 65533

/-- Pending state of the incremental UTF-8 decoder: `(rem, acc, lo, hi)`
means `rem` more continuation bytes are expected, the accumulated scalar
bits so far are `acc`, and the next byte must lie in `[lo, hi)`.  The
first-continuation range depends on the lead byte exactly as in Rust's
validator: lead `0xE0` requires `0xA0..0xBF` (no overlong encodings), lead
`0xED` requires `0x80..0x9F` (no surrogates), lead `0xF0` requires
`0x90..0xBF`, lead `0xF4` requires `0x80..0x8F` (scalar values stop at
U+10FFFF); later continuations are plain `0x80..0xBF`. -/
def Utf8Pending : Type := Nat × Nat × Nat × Nat

/-- Process one byte as a lead byte: ASCII decodes immediately, bytes
`0x80..0xC1` and `0xF5..` are invalid (one U+FFFD), and multi-byte leads
open a pending sequence. -/
def utf8Lead (b : Nat) : List Char × Option Utf8Pending :=
  if b < 128 then ([Char.ofNat b], none)
  else if b < 194 then ([replChar], none)
  else if b < 224 then ([], some (1, b - 192, 128, 192))
  else if b < 240 then
    ([], some (2, b - 224, if b = 224 then 160 else 128, if b = 237 then 160 else 192))
  else if b < 245 then
    ([], some (3, b - 240, if b = 240 then 144 else 128, if b = 244 then 144 else 192))
  else ([replChar], none)

/-- Process one byte in a decoder state.  An invalid continuation byte closes
the pending sequence with one U+FFFD (maximal-subpart substitution, as in
Rust) and reprocesses the byte as a lead byte. -/
def utf8Step : Option Utf8Pending → Nat → List Char × Option Utf8Pending
  | none, b => utf8Lead b
  | some (rem, acc, lo, hi), b =>
    if lo ≤ b ∧ b < hi then
      if rem = 1 then ([Char.ofNat (acc * 64 + (b - 128))], none)
      else ([], some (rem - 1, acc * 64 + (b - 128), 128, 192))
    else
      (replChar :: (utf8Lead b).1, (utf8Lead b).2)

/-- Run the incremental decoder; input ending inside a pending sequence
yields one final U+FFFD. -/
def decodeLoop : Option Utf8Pending → List Nat → List Char
  | none, [] => []
  | some _, [] => [replChar]
  | st, b :: rest => (utf8Step st b).1 ++ decodeLoop (utf8Step st b).2 rest

/-- Rust `String::from_utf8_lossy`, on the character level: well-formed UTF-8
sequences decode to their scalar values, and each maximal invalid subpart is
replaced by one U+FFFD. -/
def decodeUtf8Lossy (bytes : List Nat) : List Char :=
  decodeLoop none bytes

/-- Rust `char::is_whitespace`: the Unicode `White_Space` property. -/
def rustIsWhitespace (c : Char) : Bool :=
  decide ((9 ≤ c.toNat ∧ c.toNat ≤ 13) ∨ c.toNat = 32 ∨ c.toNat = 133 ∨
    c.toNat = 160 ∨ c.toNat = 5760 ∨ (8192 ≤ c.toNat ∧ c.toNat ≤ 8202) ∨
    c.toNat = 8232 ∨ c.toNat = 8233 ∨ c.toNat = 8239 ∨ c.toNat = 8287 ∨
    c.toNat = 12288)

/-- Rust `str::trim_end`: drop trailing whitespace characters. -/
def trimEnd (s : String) : String :=
  String.mk ((s.data.reverse.dropWhile rustIsWhitespace).reverse)

namespace SerializedMessage

/-- `size_of_len() = size_of::<u32>() = 4` (message.rs:10-12). -/
def size_of_len : Nat := 4

/-- `size_of_header() = size_of_len() + MsgType::size() = 5` (message.rs:14-17). -/
def size_of_header : Nat := size_of_len + 1

/-- `fn serialize(size, msg_type, payload)` (message.rs:58-65): big-endian
size, then the discriminant byte, then the payload bytes. -/
def serialize (size : Nat) (msg_type : MsgType) (payload : List Nat) : List Nat :=
  u32BeBytes size ++ [msg_type.toU8] ++ payload

/-- `SerializedMessage::from_string_generic` (message.rs:20-27);
`size = (size_of_header + payload.len()) as u32` (the `as u32` truncation is
absorbed by `u32BeBytes`, which keeps the low 32 bits). -/
def from_string_generic (payload : String) (msg_type : MsgType) : List Nat :=
  serialize (size_of_header + (strBytes payload).length) msg_type (strBytes payload)

/-- `SerializedMessage::from_string` (message.rs:30-32). -/
def from_string (payload : String) : List Nat :=
  from_string_generic payload MsgType.Text

/-- `SerializedMessage::from_help_string` (message.rs:35-37). -/
def from_help_string (payload : String) : List Nat :=
  from_string_generic payload MsgType.Help

/-- `SerializedMessage::from_user_count` (message.rs:40-44). -/
def from_user_count (n : Nat) : List Nat :=
  serialize (size_of_header + 4) MsgType.UserCount (u32BeBytes n)

end SerializedMessage

/-- Rust slice `bytes.get(i..)`: `Some` of the tail iff `i` is at most the
length. -/
def sliceFrom (bytes : List Nat) (i : Nat) : Option (List Nat) :=
  if i ≤ bytes.length then some (bytes.drop i) else none

/-- `ParsedMsg::from_bytes` (message.rs:120-154).  Reads the discriminant at
index `size_of_len`, then decodes the payload at offset `size_of_header`:
`Help` lossy-decodes the tail; `UserCount` demands exactly four payload bytes
(big-endian `u32`); `Text` lossy-decodes the tail and promotes the literal
commands `/count` and `/help` after `trim_end`. -/
def ParsedMsg.from_bytes (bytes : List Nat) : Option ParsedMsg :=
  match bytes.get? SerializedMessage.size_of_len with
  | none => none
  | some tb =>
    match tryIntoMsgType tb with
    | none => none
    | some MsgType.Help =>
      match sliceFrom bytes SerializedMessage.size_of_header with
      | none => none
      | some tail => some (ParsedMsg.Help (String.mk (decodeUtf8Lossy tail)))
    | some MsgType.UserCount =>
      match bytes.drop SerializedMessage.size_of_header with
      | [a, b, c, d] => some (ParsedMsg.UserCount (a * 16777216 + b * 65536 + c * 256 + d))
      | _ => none
    | some MsgType.Text =>
      match sliceFrom bytes SerializedMessage.size_of_header with
      | none => none
      | some tail =>
        let text := String.mk (decodeUtf8Lossy tail)
        if trimEnd text = "/count" then some (ParsedMsg.Command Cmd.UserCount)
        else if trimEnd text = "/help" then some (ParsedMsg.Command Cmd.Help)
        else some (ParsedMsg.Text text)

/-! ## Server: src/src/bin/server/main.rs

The registry `Connections { entries: HashMap<SocketAddr, Entry> }` is
modelled as the list of registered peer addresses (the `HashMap` key set;
keys are unique).  An `Entry` only wraps the peer's write half, so an
operation's output is modelled as the list of `(address, frame)` pairs it
sends, in registry order. -/

/-- `const SERVER_INFO_HEADER: &str = "SERVER.INFO: ";` -/
def SERVER_INFO_HEADER : String := "SERVER.INFO: "

/-- `const MAX_CONNECTIONS: usize = 100;` -/
def MAX_CONNECTIONS : Nat := 100

/-- `const HELP_STRING` (main.rs:30-32), a raw string spanning two lines. -/
def HELP_STRING : String :=
  "1. /help -> Get this message\n    2. /count -> Current number of connectet users"

/-- `SocketAddr::to_string` (the `Display` form used as broadcast name).
Addresses are opaque keys in the model. -/
def addrToString (a : Nat) : String := toString a

/-- `enum Connection { Push { sockaddr, stream_writer }, Pop(SocketAddr) }`
(main.rs:34-40); the write half itself carries no observable state. -/
inductive ConnEvent
  | Push (sockaddr : Nat)
  | Pop (sockaddr : Nat)
deriving DecidableEq

/-- `HashMap::insert` on the key set: a new key is added, an existing key is
replaced (the key set is unchanged). -/
def insertEntry (entries : List Nat) (a : Nat) : List Nat :=
  if a ∈ entries then entries else entries ++ [a]

/-- The `InfoKind::MessageTooLong` notice text of `send_info_msg`
(main.rs:177-180); the source misspells "length". -/
def tooLongNotice : List Nat :=
  SerializedMessage.from_string
    (SERVER_INFO_HEADER ++ "Your message is too long. Maximum allowed lenght in bytes is "
      ++ toString MAX_MSG_LEN)

/-- The `InfoKind::ServerFull` notice text of `send_info_msg` (main.rs:191-195). -/
def serverFullNotice : List Nat :=
  SerializedMessage.from_string
    (SERVER_INFO_HEADER ++ "Server has reached max number of connections "
      ++ toString MAX_CONNECTIONS ++ ". Refusing the connection.")

/-- `Connections::send_info_msg` (main.rs:171-202): `MessageTooLong` sends a
notice to the peer if it is registered, leaving the registry unchanged;
`ServerFull` removes the peer (`entries.remove`) and sends the notice through
the removed entry.  Returns the new registry and the frames sent. -/
def send_info_msg (entries : List Nat) (sockaddr : Nat) (k : InfoKind) :
    List Nat × List (Nat × List Nat) :=
  match k with
  | InfoKind.MessageTooLong =>
    (entries, if sockaddr ∈ entries then [(sockaddr, tooLongNotice)] else [])
  | InfoKind.ServerFull =>
    if sockaddr ∈ entries then (entries.erase sockaddr, [(sockaddr, serverFullNotice)])
    else (entries, [])

/-- `Connections::handle_conn` (main.rs:109-129): `Push` inserts the entry and,
if the registry size is now at or beyond `MAX_CONNECTIONS`, runs
`send_info_msg(sockaddr, ServerFull)`; `Pop` removes and closes the entry. -/
def handle_conn (entries : List Nat) (c : ConnEvent) :
    List Nat × List (Nat × List Nat) :=
  match c with
  | ConnEvent.Push a =>
    let e2 := insertEntry entries a
    if MAX_CONNECTIONS ≤ e2.length then send_info_msg e2 a InfoKind.ServerFull
    else (e2, [])
  | ConnEvent.Pop a => (entries.erase a, [])

/-- `Connections::send_count_to_user` (main.rs:131-140): if the asker is
registered, send it `from_user_count(entries.len() as u32)`. -/
def send_count_to_user (entries : List Nat) (sockaddr : Nat) : List (Nat × List Nat) :=
  if sockaddr ∈ entries then
    [(sockaddr, SerializedMessage.from_user_count (entries.length % 4294967296))]
  else []

/-- `Connections::send_help_to_user` (main.rs:142-150). -/
def send_help_to_user (entries : List Nat) (sockaddr : Nat) : List (Nat × List Nat) :=
  if sockaddr ∈ entries then [(sockaddr, SerializedMessage.from_help_string HELP_STRING)]
  else []

/-- `Connections::broadcast_msg` (main.rs:152-169): one spawned write per
registered entry; the text is `format!("{}: {}", pfx, txt)` where `pfx` is
`"You"` for the origin's own entry and the origin's address string otherwise. -/
def broadcast_msg (entries : List Nat) (txt : String) (sockaddr : Nat) :
    List (Nat × List Nat) :=
  entries.map (fun key =>
    (key, SerializedMessage.from_string
      ((if key = sockaddr then "You" else addrToString sockaddr) ++ ": " ++ txt)))

/-- `Connections::handle_message` (main.rs:204-216): `UserCount`/`Help` from a
peer are ignored, `Command` routes to the direct replies, `Text` broadcasts,
`Info` routes to `send_info_msg`.  Returns the new registry and frames sent. -/
def handle_message (entries : List Nat) (sockaddr : Nat) (msg : ParsedMsg) :
    List Nat × List (Nat × List Nat) :=
  match msg with
  | ParsedMsg.UserCount _ => (entries, [])
  | ParsedMsg.Help _ => (entries, [])
  | ParsedMsg.Command Cmd.UserCount => (entries, send_count_to_user entries sockaddr)
  | ParsedMsg.Command Cmd.Help => (entries, send_help_to_user entries sockaddr)
  | ParsedMsg.Text txt => (entries, broadcast_msg entries txt sockaddr)
  | ParsedMsg.Info k => send_info_msg entries sockaddr k

/-! ## Frame reader: `parse_messages` (main.rs:365-449)

The per-connection loop is modelled one state-transition at a time.  I/O
reads themselves (`or_close!`) either yield bytes or abort the task with
`ConnClosed`; the transition functions below model what the loop body does
with the bytes it read. -/

/-- `enum State { ReadHeader, ReadPayload, DiscardMessage(usize) }`
(main.rs:370-374). -/
inductive RState
  | ReadHeader
  | ReadPayload
  | DiscardMessage (n : Nat)
deriving DecidableEq

/-- `enum ParseError { ConnClosed(SocketAddr), InvalidMsg }` (main.rs:332-336). -/
inductive ParseError
  | ConnClosed (sockaddr : Nat)
  | InvalidMsg
deriving DecidableEq

/-- The `State::ReadHeader` arm (main.rs:381-407), after `size` and `msg_type`
were read: an oversized `size` emits one `Info(MessageTooLong)` event to the
dispatch actor, moves to `DiscardMessage(size - size_of_header)` and resizes
the scratch buffer to 256 zero bytes; a `size` not exceeding the header size
is malformed — the buffer is cleared and the state stays `ReadHeader` with no
event; otherwise the buffer becomes the header bytes padded to `size` and the
state is `ReadPayload`.  Returns (event sent, next state, buffer). -/
def headerStep (size : Nat) (msg_type : Nat) :
    Option ParsedMsg × RState × List Nat :=
  if MAX_MSG_LEN < size then
    (some (ParsedMsg.Info InfoKind.MessageTooLong),
      RState.DiscardMessage (size - SerializedMessage.size_of_header),
      List.replicate 256 0)
  else if size ≤ SerializedMessage.size_of_header then
    (none, RState.ReadHeader, [])
  else
    (none, RState.ReadPayload,
      u32BeBytes size ++ [msg_type] ++ List.replicate (size - SerializedMessage.size_of_header) 0)

/-- The `State::ReadPayload` arm (main.rs:408-432), after `read_exact` filled
the buffer past the header: `from_bytes` failing is the fatal `InvalidMsg`
error; a decoded `Info` is logged and dropped without forwarding (the state
variable is left as `ReadPayload`); anything else is forwarded to the dispatch
actor and the state returns to `ReadHeader`.  Returns the event forwarded and
the next state, or the fatal error. -/
def readPayloadStep (buf : List Nat) :
    Except ParseError (Option ParsedMsg × RState) :=
  match ParsedMsg.from_bytes buf with
  | none => Except.error ParseError.InvalidMsg
  | some msg =>
    match msg with
    | ParsedMsg.Info _ => Except.ok (none, RState.ReadPayload)
    | m => Except.ok (some m, RState.ReadHeader)

/-- The `State::DiscardMessage(to_discard)` loop (main.rs:433-446), given an
unbounded byte stream.  Each iteration runs `stream.read_exact(&mut buf)` on
the 256-byte scratch buffer, so on success it always consumes and returns
exactly 256 bytes; `bytes == to_discard` finishes the discard, otherwise the
loop continues with `to_discard - bytes` — a `usize` subtraction that
underflows whenever `to_discard < 256` (a panic in debug builds, a wrap to
an astronomically large remaining count in release builds), modelled as
`none`.  On `some c`, `c` is the total number of bytes consumed before header
parsing resumes.  The first argument is recursion fuel; one unit per
iteration is enough because every iteration consumes 256 bytes. -/
def discardRun : Nat → Nat → Option Nat
  | 0, _ => none
  | Nat.succ fuel, toDiscard =>
    if toDiscard = 256 then some 256
    else if 256 < toDiscard then
      (discardRun fuel (toDiscard - 256)).map (fun c => c + 256)
    else none

/-- The discard loop entered with `to_discard` bytes to drop: fuel
`to_discard + 1` covers every iteration the loop can make. -/
def discardLoop (toDiscard : Nat) : Option Nat :=
  discardRun (toDiscard + 1) toDiscard

/-- The error handling of `Server::spawn_conn_task` (main.rs:282-298) when
`parse_messages` returns an error: `ConnClosed` sends `Connection::Pop` to the
dispatch actor, `InvalidMsg` only logs — no event is sent. -/
def connTaskErrorEvent (e : ParseError) : Option ConnEvent :=
  match e with
  | ParseError.ConnClosed a => some (ConnEvent.Pop a)
  | ParseError.InvalidMsg => none

/-- `ParsedMsg::from_bytes` after the four ignored length bytes: the
decoder's action on `bytes.drop 4` (the discriminant byte and the payload).
`from_bytes` factors through this function (`from_bytes_eq_tail` below),
which makes precise that the length field is never read. -/
def fromBytesTail : List Nat → Option ParsedMsg
  | [] => none
  | tb :: tail =>
    match tryIntoMsgType tb with
    | none => none
    | some MsgType.Help => some (ParsedMsg.Help (String.mk (decodeUtf8Lossy tail)))
    | some MsgType.UserCount =>
      match tail with
      | [a, b, c, d] => some (ParsedMsg.UserCount (a * 16777216 + b * 65536 + c * 256 + d))
      | _ => none
    | some MsgType.Text =>
      let text := String.mk (decodeUtf8Lossy tail)
      if trimEnd text = "/count" then some (ParsedMsg.Command Cmd.UserCount)
      else if trimEnd text = "/help" then some (ParsedMsg.Command Cmd.Help)
      else some (ParsedMsg.Text text)

/-! ## Helper lemmas: UTF-8 round trip -/

theorem decodeLoop_cons (st : Option Utf8Pending) (b : Nat) (rest : List Nat) :
    decodeLoop st (b :: rest) = (utf8Step st b).1 ++ decodeLoop (utf8Step st b).2 rest := by
  cases st <;> rfl

theorem utf8Step_none (b : Nat) : utf8Step none b = utf8Lead b := rfl

theorem utf8Step_cont (rem acc lo hi b : Nat) (h1 : lo ≤ b) (h2 : b < hi)
    (hrem : rem ≠ 1) :
    utf8Step (some (rem, acc, lo, hi)) b = ([], some (rem - 1, acc * 64 + (b - 128), 128, 192)) := by
  show (if lo ≤ b ∧ b < hi then _ else _) = _
  rw [if_pos ⟨h1, h2⟩, if_neg hrem]

theorem utf8Step_last (acc lo hi b : Nat) (h1 : lo ≤ b) (h2 : b < hi) :
    utf8Step (some (1, acc, lo, hi)) b = ([Char.ofNat (acc * 64 + (b - 128))], none) := by
  show (if lo ≤ b ∧ b < hi then _ else _) = _
  rw [if_pos ⟨h1, h2⟩, if_pos rfl]

/-- Decoding inverts encoding, one character at a time, in any context. -/
theorem decodeLoop_encodeChar (c : Char) (rest : List Nat) :
    decodeLoop none (encodeChar c ++ rest) = c :: decodeLoop none rest := by
  have hval : c.toNat < 55296 ∨ (57344 ≤ c.toNat ∧ c.toNat < 1114112) := c.valid
  set n := c.toNat with hn
  have hofn : Char.ofNat n = c := Char.ofNat_toNat c
  by_cases h1 : n < 128
  · have he : encodeChar c = [n] := by
      unfold encodeChar utf8EncodeNat; rw [← hn, if_pos h1]
    rw [he, List.cons_append, List.nil_append, decodeLoop_cons, utf8Step_none]
    have hl : utf8Lead n = ([Char.ofNat n], none) := by
      unfold utf8Lead; rw [if_pos h1]
    rw [hl, hofn]
    rfl
  · by_cases h2 : n < 2048
    · have he : encodeChar c = [192 + n / 64, 128 + n % 64] := by
        unfold encodeChar utf8EncodeNat; rw [← hn, if_neg h1, if_pos h2]
      have hl : utf8Lead (192 + n / 64) = ([], some (1, n / 64, 128, 192)) := by
        unfold utf8Lead
        rw [if_neg (by omega), if_neg (by omega), if_pos (by omega)]
        have : 192 + n / 64 - 192 = n / 64 := by omega
        rw [this]
      have hs : utf8Step (some (1, n / 64, 128, 192)) (128 + n % 64)
          = ([Char.ofNat n], none) := by
        rw [utf8Step_last _ _ _ _ (by omega) (by omega)]
        have : n / 64 * 64 + (128 + n % 64 - 128) = n := by omega
        rw [this]
      rw [he, List.cons_append, List.cons_append, List.nil_append,
        decodeLoop_cons, utf8Step_none, hl, decodeLoop_cons, hs, hofn]
      rfl
    · by_cases h3 : n < 65536
      · -- three bytes; the second-byte window depends on the lead byte
        have he : encodeChar c = [224 + n / 4096, 128 + n / 64 % 64, 128 + n % 64] := by
          unfold encodeChar utf8EncodeNat; rw [← hn, if_neg h1, if_neg h2, if_pos h3]
        have hs2 : ∀ lo hi, lo ≤ 128 + n / 64 % 64 → 128 + n / 64 % 64 < hi →
            utf8Step (some (2, n / 4096, lo, hi)) (128 + n / 64 % 64)
              = ([], some (1, n / 4096 * 64 + n / 64 % 64, 128, 192)) := by
          intro lo hi hlo hhi
          rw [utf8Step_cont _ _ _ _ _ hlo hhi (by omega)]
          have : (2 : Nat) - 1 = 1 := by omega
          rw [this]
          have : n / 4096 * 64 + (128 + n / 64 % 64 - 128) = n / 4096 * 64 + n / 64 % 64 := by
            omega
          rw [this]
        have hs3 : utf8Step (some (1, n / 4096 * 64 + n / 64 % 64, 128, 192)) (128 + n % 64)
            = ([Char.ofNat n], none) := by
          rw [utf8Step_last _ _ _ _ (by omega) (by omega)]
          have : (n / 4096 * 64 + n / 64 % 64) * 64 + (128 + n % 64 - 128) = n := by omega
          rw [this]
        have run : ∀ lo hi, lo ≤ 128 + n / 64 % 64 → 128 + n / 64 % 64 < hi →
            decodeLoop (some (2, n / 4096, lo, hi))
              ((128 + n / 64 % 64) :: (128 + n % 64) :: rest) = c :: decodeLoop none rest := by
          intro lo hi hlo hhi
          rw [decodeLoop_cons, hs2 lo hi hlo hhi, decodeLoop_cons, hs3, hofn]
          rfl
        have hlead : utf8Lead (224 + n / 4096)
            = ([], some (2, n / 4096,
                if 224 + n / 4096 = 224 then 160 else 128,
                if 224 + n / 4096 = 237 then 160 else 192)) := by
          unfold utf8Lead
          rw [if_neg (by omega), if_neg (by omega), if_neg (by omega), if_pos (by omega)]
          have : 224 + n / 4096 - 224 = n / 4096 := by omega
          rw [this]
        rw [he, List.cons_append, List.cons_append, List.cons_append, List.nil_append,
          decodeLoop_cons, utf8Step_none, hlead, List.nil_append]
        by_cases hA : n < 4096
        · rw [if_pos (by omega), if_neg (by omega)]
          exact run 160 192 (by omega) (by omega)
        · by_cases hB : 53248 ≤ n ∧ n < 55296
          · rw [if_neg (by omega), if_pos (by omega)]
            exact run 128 160 (by omega) (by omega)
          · -- not the 0xE0 row and not a value the 0xED row can carry;
            -- surrogates 55296..57343 are excluded by validity
            have hC : 4096 ≤ n ∧ (n < 53248 ∨ 57344 ≤ n) := by omega
            rw [if_neg (by omega), if_neg (by omega)]
            exact run 128 192 (by omega) (by omega)
      · -- four bytes
        have h4 : 65536 ≤ n ∧ n < 1114112 := by omega
        have he : encodeChar c
            = [240 + n / 262144, 128 + n / 4096 % 64, 128 + n / 64 % 64, 128 + n % 64] := by
          unfold encodeChar utf8EncodeNat; rw [← hn, if_neg h1, if_neg h2, if_neg h3]
        have hs2 : ∀ lo hi, lo ≤ 128 + n / 4096 % 64 → 128 + n / 4096 % 64 < hi →
            utf8Step (some (3, n / 262144, lo, hi)) (128 + n / 4096 % 64)
              = ([], some (2, n / 262144 * 64 + n / 4096 % 64, 128, 192)) := by
          intro lo hi hlo hhi
          rw [utf8Step_cont _ _ _ _ _ hlo hhi (by omega)]
          have : (3 : Nat) - 1 = 2 := by omega
          rw [this]
          have : n / 262144 * 64 + (128 + n / 4096 % 64 - 128)
              = n / 262144 * 64 + n / 4096 % 64 := by omega
          rw [this]
        have hs3 : utf8Step (some (2, n / 262144 * 64 + n / 4096 % 64, 128, 192))
            (128 + n / 64 % 64)
            = ([], some (1, (n / 262144 * 64 + n / 4096 % 64) * 64 + n / 64 % 64, 128, 192)) := by
          rw [utf8Step_cont _ _ _ _ _ (by omega) (by omega) (by omega)]
          have : (2 : Nat) - 1 = 1 := by omega
          rw [this]
          have : (n / 262144 * 64 + n / 4096 % 64) * 64 + (128 + n / 64 % 64 - 128)
              = (n / 262144 * 64 + n / 4096 % 64) * 64 + n / 64 % 64 := by omega
          rw [this]
        have hs4 : utf8Step
            (some (1, (n / 262144 * 64 + n / 4096 % 64) * 64 + n / 64 % 64, 128, 192))
            (128 + n % 64) = ([Char.ofNat n], none) := by
          rw [utf8Step_last _ _ _ _ (by omega) (by omega)]
          have : ((n / 262144 * 64 + n / 4096 % 64) * 64 + n / 64 % 64) * 64
              + (128 + n % 64 - 128) = n := by omega
          rw [this]
        have run : ∀ lo hi, lo ≤ 128 + n / 4096 % 64 → 128 + n / 4096 % 64 < hi →
            decodeLoop (some (3, n / 262144, lo, hi))
              ((128 + n / 4096 % 64) :: (128 + n / 64 % 64) :: (128 + n % 64) :: rest)
              = c :: decodeLoop none rest := by
          intro lo hi hlo hhi
          rw [decodeLoop_cons, hs2 lo hi hlo hhi, decodeLoop_cons, hs3,
            decodeLoop_cons, hs4, hofn]
          rfl
        have hlead : utf8Lead (240 + n / 262144)
            = ([], some (3, n / 262144,
                if 240 + n / 262144 = 240 then 144 else 128,
                if 240 + n / 262144 = 244 then 144 else 192)) := by
          unfold utf8Lead
          rw [if_neg (by omega), if_neg (by omega), if_neg (by omega), if_neg (by omega),
            if_pos (by omega)]
          have : 240 + n / 262144 - 240 = n / 262144 := by omega
          rw [this]
        rw [he, List.cons_append, List.cons_append, List.cons_append, List.cons_append,
          List.nil_append, decodeLoop_cons, utf8Step_none, hlead, List.nil_append]
        by_cases hA : n < 262144
        · rw [if_pos (by omega), if_neg (by omega)]
          exact run 144 192 (by omega) (by omega)
        · by_cases hB : 1048576 ≤ n
          · rw [if_neg (by omega), if_pos (by omega)]
            exact run 128 144 (by omega) (by omega)
          · rw [if_neg (by omega), if_neg (by omega)]
            exact run 128 192 (by omega) (by omega)

/-- Decoding inverts encoding for whole character lists. -/
theorem decodeLoop_flatMap (l : List Char) (rest : List Nat) :
    decodeLoop none (l.flatMap encodeChar ++ rest) = l ++ decodeLoop none rest := by
  induction l with
  | nil => simp
  | cons c l ih =>
    rw [List.flatMap_cons, List.append_assoc, decodeLoop_encodeChar, ih]
    rfl

/-- `from_utf8_lossy` is the identity on the UTF-8 bytes of a string. -/
theorem decodeUtf8Lossy_strBytes (s : String) :
    String.mk (decodeUtf8Lossy (strBytes s)) = s := by
  unfold decodeUtf8Lossy strBytes
  rw [← List.append_nil (s.data.flatMap encodeChar), decodeLoop_flatMap]
  show String.mk (s.data ++ []) = s
  rw [List.append_nil]

/-! ## Helper lemmas: decoding encoded frames -/

theorem serialize_cons (size : Nat) (t : MsgType) (payload : List Nat) :
    SerializedMessage.serialize size t payload
      = size / 16777216 % 256 :: size / 65536 % 256 :: size / 256 % 256 :: size % 256
        :: t.toU8 :: payload := rfl

/-- `from_bytes` never looks at the four length bytes: it is a function of
`bytes.drop 4` alone. -/
theorem from_bytes_eq_tail (bytes : List Nat) :
    ParsedMsg.from_bytes bytes = fromBytesTail (bytes.drop 4) := by
  match bytes with
  | [] => rfl
  | [_] => rfl
  | [_, _] => rfl
  | [_, _, _] => rfl
  | b0 :: b1 :: b2 :: b3 :: rest =>
    cases rest with
    | nil => rfl
    | cons tb tail =>
      show ParsedMsg.from_bytes (b0 :: b1 :: b2 :: b3 :: tb :: tail)
        = fromBytesTail (tb :: tail)
      have hget : (b0 :: b1 :: b2 :: b3 :: tb :: tail).get? SerializedMessage.size_of_len
          = some tb := rfl
      have hslice : sliceFrom (b0 :: b1 :: b2 :: b3 :: tb :: tail)
          SerializedMessage.size_of_header = some tail := by
        unfold sliceFrom
        rw [if_pos (by simp [SerializedMessage.size_of_header, SerializedMessage.size_of_len])]
        rfl
      unfold ParsedMsg.from_bytes fromBytesTail
      rw [hget, hslice]
      rfl

theorem from_bytes_serialize (size : Nat) (t : MsgType) (payload : List Nat) :
    ParsedMsg.from_bytes (SerializedMessage.serialize size t payload)
      = fromBytesTail (t.toU8 :: payload) := by
  rw [from_bytes_eq_tail, serialize_cons]
  rfl

/-- Decoding an encoded `Text` frame, for a payload that the command
promotion does not touch. -/
theorem from_bytes_from_string (s : String) (h1 : trimEnd s ≠ "/count")
    (h2 : trimEnd s ≠ "/help") :
    ParsedMsg.from_bytes (SerializedMessage.from_string s) = some (ParsedMsg.Text s) := by
  unfold SerializedMessage.from_string SerializedMessage.from_string_generic
  rw [from_bytes_serialize]
  show (let text := String.mk (decodeUtf8Lossy (strBytes s))
    if trimEnd text = "/count" then some (ParsedMsg.Command Cmd.UserCount)
    else if trimEnd text = "/help" then some (ParsedMsg.Command Cmd.Help)
    else some (ParsedMsg.Text text)) = some (ParsedMsg.Text s)
  rw [decodeUtf8Lossy_strBytes, if_neg h1, if_neg h2]

/-- Decoding an encoded `Help` frame. -/
theorem from_bytes_from_help_string (s : String) :
    ParsedMsg.from_bytes (SerializedMessage.from_help_string s)
      = some (ParsedMsg.Help s) := by
  unfold SerializedMessage.from_help_string SerializedMessage.from_string_generic
  rw [from_bytes_serialize]
  show some (ParsedMsg.Help (String.mk (decodeUtf8Lossy (strBytes s))))
    = some (ParsedMsg.Help s)
  rw [decodeUtf8Lossy_strBytes]

/-- Decoding an encoded `UserCount` frame. -/
theorem from_bytes_from_user_count (n : Nat) (h : n < 4294967296) :
    ParsedMsg.from_bytes (SerializedMessage.from_user_count n)
      = some (ParsedMsg.UserCount n) := by
  unfold SerializedMessage.from_user_count
  rw [from_bytes_serialize]
  show some (ParsedMsg.UserCount (n / 16777216 % 256 * 16777216 + n / 65536 % 256 * 65536
    + n / 256 % 256 * 256 + n % 256)) = some (ParsedMsg.UserCount n)
  have : n / 16777216 % 256 * 16777216 + n / 65536 % 256 * 65536
      + n / 256 % 256 * 256 + n % 256 = n := by omega
  rw [this]

/-! ## Claims -/

theorem fromBytesTail_ne_info (t : List Nat) (k : InfoKind) :
    fromBytesTail t ≠ some (ParsedMsg.Info k) := by
  match t with
  | [] => simp [fromBytesTail]
  | tb :: tail =>
    unfold fromBytesTail
    rcases htb : tryIntoMsgType tb with _ | mt
    · simp [htb]
    · cases mt <;> simp only [htb]
      · split_ifs <;> simp
      · split <;> simp
      · simp

/-- C5: Encode/decode round-trip: for every string within the total-frame
size limit that the command promotion does not touch,
`from_bytes (from_string s) = Some(Text(s))`; for every string,
`from_bytes (from_help_string s) = Some(Help(s))`; and for every `u32`,
`from_bytes (from_user_count n) = Some(UserCount(n))`. -/
theorem C5_encode_decode_round_trip :
    (∀ s : String, (SerializedMessage.from_string s).length ≤ MAX_MSG_LEN →
      trimEnd s ≠ "/count" → trimEnd s ≠ "/help" →
      ParsedMsg.from_bytes (SerializedMessage.from_string s) = some (ParsedMsg.Text s))
    ∧ (∀ s : String,
      ParsedMsg.from_bytes (SerializedMessage.from_help_string s) = some (ParsedMsg.Help s))
    ∧ (∀ n : Nat, n < 4294967296 →
      ParsedMsg.from_bytes (SerializedMessage.from_user_count n)
        = some (ParsedMsg.UserCount n)) :=
  ⟨fun s _ h1 h2 => from_bytes_from_string s h1 h2,
   from_bytes_from_help_string,
   from_bytes_from_user_count⟩

theorem C5_encode_decode_round_trip_witness :
    (SerializedMessage.from_string "hello").length ≤ MAX_MSG_LEN
    ∧ ParsedMsg.from_bytes (SerializedMessage.from_string "hello")
        = some (ParsedMsg.Text "hello")
    ∧ ParsedMsg.from_bytes (SerializedMessage.from_help_string "/h")
        = some (ParsedMsg.Help "/h")
    ∧ ParsedMsg.from_bytes (SerializedMessage.from_user_count 7)
        = some (ParsedMsg.UserCount 7) :=
  ⟨by decide,
   C5_encode_decode_round_trip.1 "hello" (by decide) (by decide) (by decide),
   C5_encode_decode_round_trip.2.1 "/h",
   C5_encode_decode_round_trip.2.2 7 (by decide)⟩

/-- C6: a `Text`-typed payload decodes to `Command(UserCount)` exactly when
its content after trimming trailing whitespace is `/count`, to
`Command(Help)` exactly when it is `/help`, and to `Text` otherwise; in
particular leading whitespace before a command word yields `Text`
(see the witness). -/
theorem C6_command_promotion (bytes : List Nat) (ht : bytes.get? 4 = some 0) :
    (ParsedMsg.from_bytes bytes = some (ParsedMsg.Command Cmd.UserCount)
      ↔ trimEnd (String.mk (decodeUtf8Lossy (bytes.drop 5))) = "/count")
    ∧ (ParsedMsg.from_bytes bytes = some (ParsedMsg.Command Cmd.Help)
      ↔ trimEnd (String.mk (decodeUtf8Lossy (bytes.drop 5))) = "/help")
    ∧ (trimEnd (String.mk (decodeUtf8Lossy (bytes.drop 5))) ≠ "/count" →
      trimEnd (String.mk (decodeUtf8Lossy (bytes.drop 5))) ≠ "/help" →
      ParsedMsg.from_bytes bytes
        = some (ParsedMsg.Text (String.mk (decodeUtf8Lossy (bytes.drop 5))))) := by
  obtain ⟨hlt, hget⟩ := List.get?_eq_some.mp ht
  have hd : bytes.drop 4 = 0 :: bytes.drop 5 := by
    rw [List.drop_eq_get_cons hlt, hget]
  rw [from_bytes_eq_tail, hd]
  have hE : fromBytesTail (0 :: bytes.drop 5)
      = (if trimEnd (String.mk (decodeUtf8Lossy (bytes.drop 5))) = "/count" then
          some (ParsedMsg.Command Cmd.UserCount)
        else if trimEnd (String.mk (decodeUtf8Lossy (bytes.drop 5))) = "/help" then
          some (ParsedMsg.Command Cmd.Help)
        else some (ParsedMsg.Text (String.mk (decodeUtf8Lossy (bytes.drop 5))))) := rfl
  rw [hE]
  by_cases hc1 : trimEnd (String.mk (decodeUtf8Lossy (bytes.drop 5))) = "/count"
  · have hc2 : trimEnd (String.mk (decodeUtf8Lossy (bytes.drop 5))) ≠ "/help" := by
      rw [hc1]; decide
    simp [hc1, hc2]
  · by_cases hc2 : trimEnd (String.mk (decodeUtf8Lossy (bytes.drop 5))) = "/help"
    · simp [hc1, hc2]
    · simp [hc1, hc2]

theorem C6_command_promotion_witness :
    ParsedMsg.from_bytes (SerializedMessage.from_string " /count")
      = some (ParsedMsg.Text " /count")
    ∧ ParsedMsg.from_bytes (SerializedMessage.from_string "/count")
      = some (ParsedMsg.Command Cmd.UserCount) := by
  constructor
  · have h := (C6_command_promotion (SerializedMessage.from_string " /count")
      (by decide)).2.2 (by decide) (by decide)
    rw [h]
    decide
  · exact (C6_command_promotion (SerializedMessage.from_string "/count")
      (by decide)).1.mpr (by decide)

/-- C9: no wire content decodes to `Info` — `from_bytes` never returns
`ParsedMsg::Info` — so the frame reader's log-and-drop branch for an `Info`
decoded from a peer is unreachable: every successful `readPayloadStep`
forwards a message and returns to `ReadHeader`. -/
theorem C9_info_unreachable :
    (∀ (bytes : List Nat) (k : InfoKind),
      ParsedMsg.from_bytes bytes ≠ some (ParsedMsg.Info k))
    ∧ (∀ (buf : List Nat) (o : Option ParsedMsg) (st : RState),
      readPayloadStep buf = Except.ok (o, st) → o ≠ none ∧ st = RState.ReadHeader) := by
  have h1 : ∀ (bytes : List Nat) (k : InfoKind),
      ParsedMsg.from_bytes bytes ≠ some (ParsedMsg.Info k) := by
    intro bytes k
    rw [from_bytes_eq_tail]
    exact fromBytesTail_ne_info _ k
  refine ⟨h1, ?_⟩
  intro buf o st h
  unfold readPayloadStep at h
  rcases hfb : ParsedMsg.from_bytes buf with _ | msg
  · rw [hfb] at h
    exact absurd h (by simp)
  · rw [hfb] at h
    cases msg with
    | Info k => exact absurd hfb (h1 buf k)
    | UserCount n =>
      simp only [Except.ok.injEq, Prod.mk.injEq] at h
      exact ⟨by rw [← h.1]; simp, h.2.symm⟩
    | Text s =>
      simp only [Except.ok.injEq, Prod.mk.injEq] at h
      exact ⟨by rw [← h.1]; simp, h.2.symm⟩
    | Command c =>
      simp only [Except.ok.injEq, Prod.mk.injEq] at h
      exact ⟨by rw [← h.1]; simp, h.2.symm⟩
    | Help s =>
      simp only [Except.ok.injEq, Prod.mk.injEq] at h
      exact ⟨by rw [← h.1]; simp, h.2.symm⟩

theorem C9_info_unreachable_witness :
    ParsedMsg.from_bytes [0, 0, 0, 6, 0, 65] ≠ some (ParsedMsg.Info InfoKind.MessageTooLong)
    ∧ (some (ParsedMsg.Text "A") ≠ (none : Option ParsedMsg)
      ∧ RState.ReadHeader = RState.ReadHeader) :=
  ⟨C9_info_unreachable.1 [0, 0, 0, 6, 0, 65] InfoKind.MessageTooLong,
   C9_info_unreachable.2 [0, 0, 0, 6, 0, 65] (some (ParsedMsg.Text "A"))
     RState.ReadHeader rfl⟩

/-- C10: `from_bytes` never reads the four length bytes: any two inputs that
agree from offset 4 onward decode identically — the `total_size` field is
never validated against the bytes actually supplied. -/
theorem C10_length_field_never_read (b1 b2 : List Nat) (h : b1.drop 4 = b2.drop 4) :
    ParsedMsg.from_bytes b1 = ParsedMsg.from_bytes b2 := by
  rw [from_bytes_eq_tail, from_bytes_eq_tail, h]

theorem C10_length_field_never_read_witness :
    ([255, 255, 255, 255, 0, 104, 105] : List Nat).drop 4
      = ([0, 0, 0, 7, 0, 104, 105] : List Nat).drop 4
    ∧ ParsedMsg.from_bytes [255, 255, 255, 255, 0, 104, 105]
      = ParsedMsg.from_bytes [0, 0, 0, 7, 0, 104, 105] :=
  ⟨by decide, C10_length_field_never_read _ _ (by decide)⟩

set_option maxRecDepth 4000 in
/-- C1: the oversized-frame discard is NOT exact.  Evaluated at
`total_size = 5126` (the very frame the repo's `test_message_too_long`
sends, `MAX_MSG_LEN + 1` payload bytes): the header step does emit one
`Info(MessageTooLong)` event and enter `DiscardMessage(5126 - 5)`, but the
discard loop `read_exact`s the full 256-byte scratch buffer on every
iteration, so after 20 reads (5120 bytes consumed) the remaining count is 1
and the loop computes `1 - 256`, an underflowing `usize` subtraction
(`discardLoop 5121 = none`): the reader never consumes exactly `N - 5`
bytes and never resumes header parsing at the byte after the frame. -/
theorem C1_oversized_discard_not_exact :
    MAX_MSG_LEN < 5126
    ∧ headerStep 5126 0
      = (some (ParsedMsg.Info InfoKind.MessageTooLong),
          RState.DiscardMessage 5121, List.replicate 256 0)
    ∧ 5126 - SerializedMessage.size_of_header = 5121
    ∧ discardLoop 5121 = none := by
  refine ⟨by decide, ?_, by decide, ?_⟩ <;> decide

/-- C2: an undecodable payload (unknown `msg_type` 3, or a `UserCount`
payload that is not exactly 4 bytes) makes `from_bytes` fail and
`parse_messages` return `Err(InvalidMsg)` — but `spawn_conn_task` sends a
`Connection::Pop` eviction event only for `ConnClosed`; for `InvalidMsg` it
sends nothing, so the peer is NOT removed from the registry. -/
theorem C2_invalid_msg_no_eviction :
    ParsedMsg.from_bytes [0, 0, 0, 6, 3, 0] = none
    ∧ ParsedMsg.from_bytes [0, 0, 0, 7, 1, 0, 1] = none
    ∧ readPayloadStep [0, 0, 0, 6, 3, 0] = Except.error ParseError.InvalidMsg
    ∧ connTaskErrorEvent ParseError.InvalidMsg = none := by
  refine ⟨by decide, by decide, rfl, rfl⟩

/-- C8: a header whose `total_size` is at most the 5-byte header size is
treated as malformed: the reader emits no event, clears its buffer and
returns to `ReadHeader` — the connection is not terminated. -/
theorem C8_malformed_header_silent (size msg_type : Nat)
    (h : size ≤ SerializedMessage.size_of_header) :
    headerStep size msg_type = (none, RState.ReadHeader, []) := by
  have h5 : size ≤ 5 := h
  unfold headerStep
  rw [if_neg (show ¬MAX_MSG_LEN < size by unfold MAX_MSG_LEN; omega), if_pos h]

theorem C8_malformed_header_silent_witness :
    headerStep 3 0 = (none, RState.ReadHeader, []) :=
  C8_malformed_header_silent 3 0 (by decide)

/-- C3: a `Push` that brings the registry to `MAX_CONNECTIONS` or beyond
sends exactly one server-full notice to the newest peer and removes it in
the same (atomic) `handle_conn` call, so the peer is in no broadcast taken
from the resulting registry; and starting below the bound, every completed
`Push` leaves the registry strictly below `MAX_CONNECTIONS`. -/
theorem C3_capacity_eviction (entries : List Nat) (a : Nat) (txt : String)
    (origin : Nat) (hnd : entries.Nodup) (hlt : entries.length < MAX_CONNECTIONS) :
    (MAX_CONNECTIONS ≤ (insertEntry entries a).length →
      (handle_conn entries (ConnEvent.Push a)).2 = [(a, serverFullNotice)]
      ∧ a ∉ (handle_conn entries (ConnEvent.Push a)).1
      ∧ ∀ p ∈ broadcast_msg (handle_conn entries (ConnEvent.Push a)).1 txt origin,
          p.1 ≠ a)
    ∧ (handle_conn entries (ConnEvent.Push a)).1.length < MAX_CONNECTIONS := by
  have hmem : a ∈ insertEntry entries a := by
    by_cases h : a ∈ entries <;> simp [insertEntry, h]
  have hnd2 : (insertEntry entries a).Nodup := by
    by_cases h : a ∈ entries
    · simpa [insertEntry, h] using hnd
    · rw [insertEntry, if_neg h, List.nodup_append]
      exact ⟨hnd, List.nodup_singleton a, by
        intro x hx hxa
        rw [List.mem_singleton] at hxa
        exact h (hxa ▸ hx)⟩
  have hlen : (insertEntry entries a).length ≤ entries.length + 1 := by
    by_cases h : a ∈ entries <;> simp [insertEntry, h]
  have hhc : handle_conn entries (ConnEvent.Push a)
      = if MAX_CONNECTIONS ≤ (insertEntry entries a).length then
          send_info_msg (insertEntry entries a) a InfoKind.ServerFull
        else (insertEntry entries a, []) := rfl
  by_cases hfull : MAX_CONNECTIONS ≤ (insertEntry entries a).length
  · rw [hhc, if_pos hfull]
    have hsi : send_info_msg (insertEntry entries a) a InfoKind.ServerFull
        = ((insertEntry entries a).erase a, [(a, serverFullNotice)]) := by
      show (if a ∈ insertEntry entries a then
          ((insertEntry entries a).erase a, [(a, serverFullNotice)])
        else (insertEntry entries a, [])) = _
      rw [if_pos hmem]
    rw [hsi]
    have hnot : a ∉ ((insertEntry entries a).erase a) := by
      intro hmm
      exact absurd (hnd2.mem_erase_iff.mp hmm).1 (by simp)
    refine ⟨fun _ => ⟨rfl, hnot, ?_⟩, ?_⟩
    · intro p hp hpa
      rcases List.mem_map.mp hp with ⟨key, hkeymem, hpe⟩
      have hkeyp : key = p.1 := by rw [← hpe]
      rw [hpa] at hkeyp
      rw [hkeyp] at hkeymem
      exact hnot hkeymem
    · show ((insertEntry entries a).erase a).length < MAX_CONNECTIONS
      rw [List.length_erase_of_mem hmem]
      omega
  · rw [hhc, if_neg hfull]
    exact ⟨fun h => absurd h hfull, by
      show (insertEntry entries a).length < MAX_CONNECTIONS
      omega⟩

theorem C3_capacity_eviction_witness :
    (handle_conn (List.range 99) (ConnEvent.Push 1000)).2 = [(1000, serverFullNotice)]
    ∧ 1000 ∉ (handle_conn (List.range 99) (ConnEvent.Push 1000)).1
    ∧ (∀ p ∈ broadcast_msg (handle_conn (List.range 99) (ConnEvent.Push 1000)).1 "t" 0,
        p.1 ≠ 1000)
    ∧ (handle_conn (List.range 99) (ConnEvent.Push 1000)).1.length < MAX_CONNECTIONS := by
  have h := C3_capacity_eviction (List.range 99) 1000 "t" 0 (by decide) (by decide)
  have h1 := h.1 (by decide)
  exact ⟨h1.1, h1.2.1, h1.2.2, h.2⟩

/-- C4: broadcasting text from origin `p` over a registry of `k` peers
produces exactly one frame per registered peer (the target list is the
registry itself), the origin's frame carrying `"You: " ++ txt` and every
other peer's frame carrying the origin's address string, `": "`, then the
text. -/
theorem C4_broadcast_fanout (entries : List Nat) (txt : String) (p : Nat)
    (hp : p ∈ entries) :
    (broadcast_msg entries txt p).map Prod.fst = entries
    ∧ (broadcast_msg entries txt p).length = entries.length
    ∧ (p, SerializedMessage.from_string ("You: " ++ txt)) ∈ broadcast_msg entries txt p
    ∧ (∀ a, a ∈ entries → a ≠ p →
      (a, SerializedMessage.from_string (addrToString p ++ ": " ++ txt))
        ∈ broadcast_msg entries txt p)
    ∧ (∀ q ∈ broadcast_msg entries txt p, q.1 ∈ entries) := by
  refine ⟨?_, ?_, ?_, ?_, ?_⟩
  · simp [broadcast_msg, Function.comp_def]
  · simp [broadcast_msg]
  · refine List.mem_map.mpr ⟨p, hp, ?_⟩
    rw [if_pos rfl]
    have : ("You" : String) ++ ": " = "You: " := rfl
    rw [← this, String.append_assoc]
  · intro a ha hap
    refine List.mem_map.mpr ⟨a, ha, ?_⟩
    rw [if_neg hap]
  · intro q hq
    rcases List.mem_map.mp hq with ⟨key, hkey, hqe⟩
    have : q.1 = key := by rw [← hqe]
    rw [this]
    exact hkey

theorem C4_broadcast_fanout_witness :
    (broadcast_msg [0, 1] "hi" 0).map Prod.fst = [0, 1]
    ∧ (broadcast_msg [0, 1] "hi" 0).length = 2
    ∧ (0, SerializedMessage.from_string ("You: " ++ "hi")) ∈ broadcast_msg [0, 1] "hi" 0
    ∧ (1, SerializedMessage.from_string (addrToString 0 ++ ": " ++ "hi"))
        ∈ broadcast_msg [0, 1] "hi" 0 := by
  have h := C4_broadcast_fanout [0, 1] "hi" 0 (by decide)
  exact ⟨h.1, h.2.1, h.2.2.1, h.2.2.2.1 1 (by decide) (by decide)⟩

/-- C7: a `Command(UserCount)` from a registered peer `a` while the registry
holds `n` peers produces exactly one frame, a `UserCount(n)` reply sent to
`a` only, and leaves the registry unchanged. -/
theorem C7_user_count_reply (entries : List Nat) (a n : Nat) (hmem : a ∈ entries)
    (hlen : entries.length = n) (hn : n < 4294967296) :
    handle_message entries a (ParsedMsg.Command Cmd.UserCount)
      = (entries, [(a, SerializedMessage.from_user_count n)]) := by
  subst hlen
  unfold handle_message send_count_to_user
  rw [if_pos hmem, Nat.mod_eq_of_lt hn]

theorem C7_user_count_reply_witness :
    handle_message [3, 4] 3 (ParsedMsg.Command Cmd.UserCount)
      = ([3, 4], [(3, SerializedMessage.from_user_count 2)]) :=
  C7_user_count_reply [3, 4] 3 2 (by decide) (by decide) (by decide)
